import Mathlib

/-!
Verification development for the `@statebacked/machine` package.

The package exports small runtime interop helpers (`spawn`, `spawnPersistentInstance`,
`spawnEphemeralInstance`, `invocableSource`, `persistentInvocableSource`, `sendTo`,
in `src/rt.ts`) together with the type vocabulary for authorization and migration
callbacks (`src/index.ts`).  This file gives a shallow embedding of those helpers and
of the `StateValue` / `StatePath` state-representation model, and proves the spec's
claims about them.

Modelling conventions:
* `crypto.randomUUID()` is modelled by an explicit generator state `UuidGen`:
  a stream of identifiers together with a counter; each call returns the next
  identifier of the stream and advances the counter.
* The process-wide globals `globalThis.__statebacked_rt` and the (misspelled)
  `globalThis.__statebaked_rt` consulted by the source are modelled by a `GlobalEnv`
  record with one optional hook slot per spelling.  An installed hook is modelled as
  always providing a spawn function (the only shape the claims exercise); the single
  polymorphic JS `spawn` property is modelled by its two restrictions
  `spawnPersistent` (descriptor argument) and `spawnEphemeral` (spawnable argument),
  each a pure function of its arguments.
* A JS `TypeError` raised by reading a property of `undefined` is modelled by
  `JsError.typeError p` where `p` is the property being read; fallible helpers
  return `Except JsError`.  Helpers whose source bodies cannot throw (every property
  access is guarded or on a defined value) are given plain return types.
-/

/-- State of the `crypto.randomUUID` generator: an infinite stream of identifiers and
the index of the next one to hand out. -/
structure UuidGen where
  stream : Nat → String
  counter : Nat

/-- One call to `crypto.randomUUID()`: returns the next identifier of the stream and
advances the generator. -/
def randomUUID (g : UuidGen) : String × UuidGen :=
  (g.stream g.counter, ⟨g.stream, g.counter + 1⟩)

/-- A generator is valid when it only produces non-empty identifiers
(`crypto.randomUUID` always returns a 36-character string). -/
def UuidGen.Valid (g : UuidGen) : Prop :=
  ∀ n, g.stream n ≠ ""

/-- `PersistentInstanceDescriptor` from `src/rt.ts`: `machineName` required,
`machineInstanceName` and `machineVersionId` optional. -/
structure PersistentInstanceDescriptor where
  machineName : String
  machineInstanceName : Option String
  machineVersionId : Option String

/-- `PersistentActorRef` from `src/rt.ts`.  The `machineVersionId` field records the
descriptor field carried through by the object spread in the local fallback of the
spawn helpers (the TS type omits it but the constructed JS object carries it). -/
structure PersistentActorRef where
  type : String
  id : String
  machineName : String
  machineInstanceName : String
  machineVersionId : Option String

/-- `SpawnOptions` from `src/rt.ts`.  The `context` record is never examined by this
package; it is modelled as an association list. -/
structure SpawnOptions where
  context : Option (List (String × String))
  name : Option String

/-- Stand-in for `XStateSpawnable` (the union of spawnable entities); the package
never examines the entity, it only forwards it to the runtime hook. -/
structure XStateSpawnable where
  entityId : Nat

/-- `EphemeralSpawnOptions` from `src/rt.ts`. -/
structure EphemeralSpawnOptions where
  name : Option String
  autoForward : Option Bool
  sync : Option Bool

/-- The `nameOrOptions` argument of `spawnEphemeralInstance`: a string or an options
record. -/
inductive EphemeralNameOrOptions where
  | str (s : String)
  | options (o : EphemeralSpawnOptions)

/-- Stand-in for `XStateActorRef` as returned by the runtime hook for ephemeral
spawns; its methods are never examined by this package. -/
structure XStateActorRefStub where
  refId : Nat

/-- The externally-installed runtime hook object.  In JS it exposes a single
polymorphic `spawn` method; `spawnPersistent` and `spawnEphemeral` are its
restrictions to the two argument shapes this package calls it with. -/
structure RtHook where
  spawnPersistent : PersistentInstanceDescriptor → Option SpawnOptions → PersistentActorRef
  spawnEphemeral : XStateSpawnable → Option EphemeralNameOrOptions → XStateActorRefStub

/-- The process-wide globals the helpers consult.  `statebacked_rt` models
`globalThis.__statebacked_rt`; `statebaked_rt` models the misspelled
`globalThis.__statebaked_rt` read by the legacy `spawn` helper (note the missing
`c`, exactly as in the source). -/
structure GlobalEnv where
  statebacked_rt : Option RtHook
  statebaked_rt : Option RtHook

/-- A JS `TypeError` from reading property `readProperty` of `undefined`. -/
inductive JsError where
  | typeError (readProperty : String)
deriving DecidableEq

/-- Legacy `spawn` from `src/rt.ts` (lines 63-78).  It checks
`typeof globalThis?.__statebaked_rt?.spawn === "function"` — the misspelled slot —
and delegates if that hook is installed.  Otherwise it builds the local fallback
object; there it reads `opts.name` WITHOUT optional chaining, so when `opts` is
omitted the read throws a `TypeError` before any object is produced.  Property
order in the object literal: `id` is computed before `machineInstanceName`, so the
`id` identifier is drawn from the generator first. -/
def spawn (env : GlobalEnv) (instanceDescriptor : PersistentInstanceDescriptor)
    (opts : Option SpawnOptions) (g : UuidGen) :
    Except JsError (PersistentActorRef × UuidGen) :=
  match env.statebaked_rt with
  | some hook => .ok (hook.spawnPersistent instanceDescriptor opts, g)
  | none =>
    match opts with
    | none => .error (.typeError "name")
    | some o =>
      let (idVal, g1) := match o.name with
        | some n => (n, g)
        | none => randomUUID g
      let (instName, g2) := match instanceDescriptor.machineInstanceName with
        | some i => (i, g1)
        | none => randomUUID g1
      .ok ({ type := "statebacked.instance", id := idVal,
             machineName := instanceDescriptor.machineName,
             machineInstanceName := instName,
             machineVersionId := instanceDescriptor.machineVersionId }, g2)

/-- `spawnPersistentInstance` from `src/rt.ts` (lines 208-223).  It checks
`typeof (globalThis as any)?.__statebacked_rt?.spawn === "function"` (correct
spelling) and delegates if the hook is installed; otherwise it builds the local
fallback object, reading `opts?.name` with optional chaining, so a missing `opts`
falls through to a generated identifier instead of throwing.  No operation in the
body can throw, hence the plain (non-`Except`) return type. -/
def spawnPersistentInstance (env : GlobalEnv)
    (instanceDescriptor : PersistentInstanceDescriptor)
    (opts : Option SpawnOptions) (g : UuidGen) : PersistentActorRef × UuidGen :=
  match env.statebacked_rt with
  | some hook => (hook.spawnPersistent instanceDescriptor opts, g)
  | none =>
    let (idVal, g1) := match opts with
      | some o => match o.name with
        | some n => (n, g)
        | none => randomUUID g
      | none => randomUUID g
    let (instName, g2) := match instanceDescriptor.machineInstanceName with
      | some i => (i, g1)
      | none => randomUUID g1
    ({ type := "statebacked.instance", id := idVal,
       machineName := instanceDescriptor.machineName,
       machineInstanceName := instName,
       machineVersionId := instanceDescriptor.machineVersionId }, g2)

/-- `spawnEphemeralInstance` from `src/rt.ts` (lines 387-392).  The body is the
single expression `(globalThis as any).__statebacked_rt.spawn(entity, nameOrOptions)`:
no presence check, so when the hook slot is undefined the `spawn` property read
throws, and otherwise the call is delegated unconditionally. -/
def spawnEphemeralInstance (env : GlobalEnv) (entity : XStateSpawnable)
    (nameOrOptions : Option EphemeralNameOrOptions) :
    Except JsError XStateActorRefStub :=
  match env.statebacked_rt with
  | none => .error (.typeError "spawn")
  | some hook => .ok (hook.spawnEphemeral entity nameOrOptions)

/-- The invoke-source object built by `invocableSource` / `persistentInvocableSource`. -/
structure InvokeSource where
  type : String
  machineName : String
  machineInstanceName : String
  machineVersionId : Option String

/-- Legacy `invocableSource` from `src/rt.ts` (lines 102-110): a plain object
literal copying `machineName` and `machineVersionId` from the descriptor and using
`machineInstanceName ?? crypto.randomUUID()` for the instance name. -/
def invocableSource (instanceDescriptor : PersistentInstanceDescriptor)
    (g : UuidGen) : InvokeSource × UuidGen :=
  let (instName, g1) := match instanceDescriptor.machineInstanceName with
    | some i => (i, g)
    | none => randomUUID g
  ({ type := "statebacked.invoke",
     machineName := instanceDescriptor.machineName,
     machineInstanceName := instName,
     machineVersionId := instanceDescriptor.machineVersionId }, g1)

/-- `persistentInvocableSource` from `src/rt.ts` (lines 416-424); its body is
identical to the legacy `invocableSource`. -/
def persistentInvocableSource (instanceDescriptor : PersistentInstanceDescriptor)
    (g : UuidGen) : InvokeSource × UuidGen :=
  let (instName, g1) := match instanceDescriptor.machineInstanceName with
    | some i => (i, g)
    | none => randomUUID g
  ({ type := "statebacked.invoke",
     machineName := instanceDescriptor.machineName,
     machineInstanceName := instName,
     machineVersionId := instanceDescriptor.machineVersionId }, g1)

/-- The `actor` argument of `sendTo`: a string, a `PersistentActorRef`, or a function
of the current context and event returning either. -/
inductive SendToActor (Ctx Evt : Type) where
  | name (s : String)
  | ref (r : PersistentActorRef)
  | fn (f : Ctx → Evt → String ⊕ PersistentActorRef)

/-- The `event` argument of `sendTo`: in JS it is `any`, discriminated at runtime by
`typeof event === "function"`.  A function argument already follows the runtime's
event-producer calling convention (it is invoked with the current context and
event); any other value is a plain event. -/
inductive SendEventArg (Ctx Evt E : Type) where
  | jsFunc (f : Ctx → Evt → E)
  | plain (v : E)

/-- The `delay` field of the `sendTo` options: string, number, or function of the
current context and event. -/
inductive SendDelay (Ctx Evt : Type) where
  | str (s : String)
  | num (n : Int)
  | fn (f : Ctx → Evt → String ⊕ Int)

/-- The `id` field of the `sendTo` options: string or number. -/
inductive SendId where
  | str (s : String)
  | num (n : Int)

/-- The `opts` argument of `sendTo` (both fields are required once `opts` is
supplied, as in the source type). -/
structure SendToOptions (Ctx Evt : Type) where
  delay : SendDelay Ctx Evt
  id : SendId

/-- The action object returned by `sendTo`.  The `toActor` field embeds the `to`
property of the source object (`to` is a reserved token in this development). -/
structure SendAction (Ctx Evt E : Type) where
  type : String
  toActor : SendToActor Ctx Evt
  event : Ctx → Evt → E
  delay : Option (SendDelay Ctx Evt)
  id : Option SendId

/-- `sendTo` from `src/rt.ts` (lines 434-459; the legacy version at lines 120-145
has the identical body, differing only in TS generic annotations, so this single
definition embeds both).  It returns
`{type: "xstate.send", to: actor, event: typeof event === "function" ? event : () => event,
delay: opts?.delay, id: opts?.id}`.  The thunk `() => event` ignores its arguments
and returns the captured value, so it is modelled as the constant event-producer
function; a JS call with no arguments is the call with both arguments `undefined`,
which the thunk ignores. -/
def sendTo {Ctx Evt E : Type} (actor : SendToActor Ctx Evt)
    (event : SendEventArg Ctx Evt E) (opts : Option (SendToOptions Ctx Evt)) :
    SendAction Ctx Evt E :=
  { type := "xstate.send",
    toActor := actor,
    event := match event with
      | .jsFunc f => f
      | .plain v => fun _ _ => v,
    delay := opts.map (fun o => o.delay),
    id := opts.map (fun o => o.id) }

/-- Executing a `sendTo` call in a process state (the installed globals and the
`randomUUID` generator): the source body reads no global and performs no
`crypto.randomUUID()` call, so the call returns the action and leaves the generator
untouched.  This wrapper makes the two-run determinism of `sendTo` statable against
differing process states. -/
def sendToRun {Ctx Evt E : Type} (env : GlobalEnv) (g : UuidGen)
    (actor : SendToActor Ctx Evt) (event : SendEventArg Ctx Evt E)
    (opts : Option (SendToOptions Ctx Evt)) :
    SendAction Ctx Evt E × GlobalEnv × UuidGen :=
  (sendTo actor event opts, env, g)

/-- Heap of descriptor objects: JS objects passed by reference are modelled as
indices into this heap, so that mutation of a caller's descriptor would be
observable as a change of the heap cell. -/
abbrev DescriptorHeap := List PersistentInstanceDescriptor

/-- Heap-instrumented `spawnPersistentInstance`: the descriptor argument is a
reference `dref` into the heap.  The source body only reads properties of
`instanceDescriptor` (directly and through the object spread, which copies fields
into a fresh object) and contains no property assignment, so executing the call
dereferences the descriptor, runs the pure body on the value read, and leaves every
heap cell as it was.  `none` is returned for a dangling reference (not a
JS-representable call). -/
def spawnPersistentInstanceHeap (env : GlobalEnv) (heap : DescriptorHeap)
    (dref : Nat) (opts : Option SpawnOptions) (g : UuidGen) :
    Option ((PersistentActorRef × UuidGen) × DescriptorHeap) :=
  match heap.get? dref with
  | none => none
  | some d => some (spawnPersistentInstance env d opts g, heap)

/-- Heap-instrumented `persistentInvocableSource`; see
`spawnPersistentInstanceHeap`.  The source body only reads descriptor properties
and builds a fresh object, so the heap is left as it was. -/
def persistentInvocableSourceHeap (heap : DescriptorHeap) (dref : Nat)
    (g : UuidGen) : Option ((InvokeSource × UuidGen) × DescriptorHeap) :=
  match heap.get? dref with
  | none => none
  | some d => some (persistentInvocableSource d g, heap)

/-- A concrete valid generator used by closed evaluations: identifiers
`id-0`, `id-1`, ... -/
def demoGen : UuidGen :=
  ⟨fun n => "id-" ++ toString n, 0⟩

/-- A concrete runtime hook used by closed evaluations: it tags persistent refs
with a fixed shape and returns a fixed ephemeral ref. -/
def demoHook : RtHook :=
  ⟨fun d _ => ⟨"statebacked.instance", "hook-id", d.machineName,
      "hook-instance", d.machineVersionId⟩,
    fun e _ => ⟨e.entityId + 100⟩⟩

/-- A concrete event object shape `{type: string}`, used to state closed instances
of the `sendTo` claims. -/
structure EventObj where
  type : String

/-- C1: the claim extends the hook-less persistent-spawn property to the legacy
`spawn` helper with `opts` omitted, but there the source reads `opts.name` without
optional chaining and throws; `spawnPersistentInstance` at the same input (and the
legacy `spawn` once an `opts` object is supplied) does return the claimed reference
with non-empty generated identifiers, drawn for `id` first and
`machineInstanceName` second. -/
theorem spawn_missing_opts_bug :
    spawn ⟨none, none⟩ ⟨"m", none, none⟩ none demoGen
      = .error (.typeError "name")
    ∧ spawnPersistentInstance ⟨none, none⟩ ⟨"m", none, none⟩ none demoGen
      = (⟨"statebacked.instance", demoGen.stream 0, "m", demoGen.stream 1, none⟩,
          ⟨demoGen.stream, 2⟩)
    ∧ spawn ⟨none, none⟩ ⟨"m", none, none⟩ (some ⟨none, none⟩) demoGen
      = .ok (⟨"statebacked.instance", demoGen.stream 0, "m", demoGen.stream 1, none⟩,
          ⟨demoGen.stream, 2⟩)
    ∧ demoGen.stream 0 ≠ "" ∧ demoGen.stream 1 ≠ "" := by
  refine ⟨rfl, rfl, rfl, ?_, ?_⟩ <;> decide

/-- C2: with `machineInstanceName` supplied (and no version pin), both
`persistentInvocableSource` and the legacy `invocableSource` return exactly
`{type: "statebacked.invoke", machineName, machineInstanceName, machineVersionId: undefined}`;
with `machineInstanceName` omitted, the returned `machineInstanceName` is the
freshly generated identifier (the generator's next output). -/
theorem invocableSource_exact :
    (∀ m i g, (persistentInvocableSource ⟨m, some i, none⟩ g).1
        = ⟨"statebacked.invoke", m, i, none⟩)
    ∧ (∀ m i g, (invocableSource ⟨m, some i, none⟩ g).1
        = ⟨"statebacked.invoke", m, i, none⟩)
    ∧ (∀ d g, d.machineInstanceName = none →
        (persistentInvocableSource d g).1.machineInstanceName = g.stream g.counter)
    ∧ (∀ d g, d.machineInstanceName = none →
        (invocableSource d g).1.machineInstanceName = g.stream g.counter) := by
  refine ⟨fun m i g => rfl, fun m i g => rfl, ?_, ?_⟩ <;>
    (intro d g h; simp [persistentInvocableSource, invocableSource, h, randomUUID])

/-- Witness for C2 at a concrete hook-less input, discharging the
`machineInstanceName = none` hypotheses. -/
theorem invocableSource_exact_witness :
    (persistentInvocableSource ⟨"m", none, none⟩ demoGen).1.machineInstanceName
        = demoGen.stream demoGen.counter
    ∧ (invocableSource ⟨"m", none, none⟩ demoGen).1.machineInstanceName
        = demoGen.stream demoGen.counter :=
  ⟨invocableSource_exact.2.2.1 ⟨"m", none, none⟩ demoGen rfl,
   invocableSource_exact.2.2.2 ⟨"m", none, none⟩ demoGen rfl⟩

/-- C3: for every actor argument and every non-function event value, the `event`
field of the action returned by `sendTo` is a function returning that value
unchanged (a JS call with no arguments is the call with both arguments undefined,
which the thunk ignores); in particular
`sendTo("actorId", {type: "EVT"}).event()` is `{type: "EVT"}`. -/
theorem sendTo_event_thunk :
    (∀ (Ctx Evt E : Type) (actor : SendToActor Ctx Evt) (e : E)
        (opts : Option (SendToOptions Ctx Evt)) (c : Ctx) (ev : Evt),
      (sendTo actor (SendEventArg.plain e) opts).event c ev = e)
    ∧ (@sendTo Unit Unit EventObj (SendToActor.name "actorId")
        (SendEventArg.plain ⟨"EVT"⟩) none).event () () = ⟨"EVT"⟩ :=
  ⟨fun _ _ _ _ _ _ _ _ => rfl, rfl⟩

/-- C5 counterexample: `spawnEphemeralInstance` does touch the runtime hook without
a defensive presence check — with no hook installed it fails by reading the `spawn`
property of the undefined hook object, refuting the claim that no helper can fail
that way. -/
theorem spawnEphemeral_hookless_counterexample :
    spawnEphemeralInstance ⟨none, none⟩ ⟨0⟩ none = .error (.typeError "spawn") := rfl

/-- C5 amended: `spawn` and `spawnPersistentInstance` guard their hook access (the
only error the legacy `spawn` can produce is the `opts.name` read, never a hook
read, and hook-less `spawnPersistentInstance` always constructs a reference), while
`spawnEphemeralInstance` performs no check and fails with the
property-access-on-undefined error whenever the hook is absent. -/
theorem hook_access_defensiveness :
    (∀ env d opts g e, spawn env d opts g = .error e → e = .typeError "name")
    ∧ (∀ env d opts g, env.statebacked_rt = none →
        (spawnPersistentInstance env d opts g).1.type = "statebacked.instance")
    ∧ (∀ env entity nameOrOptions, env.statebacked_rt = none →
        spawnEphemeralInstance env entity nameOrOptions
          = .error (.typeError "spawn")) := by
  refine ⟨?_, ?_, ?_⟩
  · intro env d opts g e h
    rcases env with ⟨bk, bkd⟩
    cases bkd with
    | some hook => simp [spawn] at h
    | none =>
      cases opts with
      | none =>
        simp [spawn] at h
        exact h.symm
      | some o =>
        cases hn : o.name <;> cases hi : d.machineInstanceName <;>
          simp [spawn, randomUUID, hn, hi] at h
  · intro env d opts g h
    rcases env with ⟨bk, bkd⟩
    cases h
    rcases d with ⟨mn, mi, mv⟩
    rcases opts with _ | ⟨ctx, nm⟩
    · rcases mi with _ | i <;> rfl
    · rcases nm with _ | n <;> rcases mi with _ | i <;> rfl
  · intro env entity nameOrOptions h
    rcases env with ⟨bk, bkd⟩
    cases h
    rfl

/-- Witness for C5's amended claim at concrete inputs, discharging each
hypothesis. -/
theorem hook_access_defensiveness_witness :
    (JsError.typeError "name") = .typeError "name"
    ∧ (spawnPersistentInstance ⟨none, none⟩ ⟨"m", none, none⟩ none demoGen).1.type
        = "statebacked.instance"
    ∧ spawnEphemeralInstance ⟨none, none⟩ ⟨1⟩ none = .error (.typeError "spawn") :=
  ⟨hook_access_defensiveness.1 ⟨none, none⟩ ⟨"m", none, none⟩ none demoGen
      (.typeError "name") rfl,
   hook_access_defensiveness.2.1 ⟨none, none⟩ ⟨"m", none, none⟩ none demoGen rfl,
   hook_access_defensiveness.2.2 ⟨none, none⟩ ⟨1⟩ none rfl⟩

/-- C6: `spawnEphemeralInstance` unconditionally delegates to the hook's spawn
method when the hook is installed, and fails with the missing-hook
(property-access-on-undefined) error when it is not, never returning a local
fallback value. -/
theorem spawnEphemeral_unconditional_delegation :
    ∀ env (entity : XStateSpawnable) (nameOrOptions : Option EphemeralNameOrOptions),
      (∀ hook, env.statebacked_rt = some hook →
        spawnEphemeralInstance env entity nameOrOptions
          = .ok (hook.spawnEphemeral entity nameOrOptions))
      ∧ (env.statebacked_rt = none →
        spawnEphemeralInstance env entity nameOrOptions
          = .error (.typeError "spawn")) := by
  intro env entity nameOrOptions
  rcases env with ⟨bk, bkd⟩
  constructor
  · intro hook h
    cases h
    rfl
  · intro h
    cases h
    rfl

/-- Witness for C6 at concrete inputs, in both the installed-hook and the absent-hook
environments. -/
theorem spawnEphemeral_unconditional_delegation_witness :
    spawnEphemeralInstance ⟨some demoHook, none⟩ ⟨1⟩ none
        = .ok (demoHook.spawnEphemeral ⟨1⟩ none)
    ∧ spawnEphemeralInstance ⟨none, some demoHook⟩ ⟨1⟩ none
        = .error (.typeError "spawn") :=
  ⟨(spawnEphemeral_unconditional_delegation ⟨some demoHook, none⟩ ⟨1⟩ none).1
      demoHook rfl,
   (spawnEphemeral_unconditional_delegation ⟨none, some demoHook⟩ ⟨1⟩ none).2 rfl⟩

/-- C7: `sendTo` is deterministic for all inputs — two calls with identical
arguments, in arbitrary (and arbitrarily different) process states, return
structurally equal action objects — and `persistentInvocableSource` is
deterministic whenever the descriptor supplies `machineInstanceName`: its result
does not depend on the `randomUUID` generator state. -/
theorem sendTo_invocableSource_deterministic :
    (∀ (Ctx Evt E : Type) (env1 env2 : GlobalEnv) (g1 g2 : UuidGen)
        (actor : SendToActor Ctx Evt) (event : SendEventArg Ctx Evt E)
        (opts : Option (SendToOptions Ctx Evt)),
      (sendToRun env1 g1 actor event opts).1 = (sendToRun env2 g2 actor event opts).1)
    ∧ (∀ d i g1 g2, d.machineInstanceName = some i →
      (persistentInvocableSource d g1).1 = (persistentInvocableSource d g2).1) := by
  refine ⟨fun _ _ _ _ _ _ _ _ _ _ => rfl, ?_⟩
  intro d i g1 g2 h
  simp [persistentInvocableSource, h]

/-- Witness for C7, discharging the supplied-instance-name hypothesis at a concrete
descriptor run against two different generator states. -/
theorem sendTo_invocableSource_deterministic_witness :
    (persistentInvocableSource ⟨"m", some "i", none⟩ demoGen).1
      = (persistentInvocableSource ⟨"m", some "i", none⟩ ⟨fun _ => "z", 5⟩).1 :=
  sendTo_invocableSource_deterministic.2 ⟨"m", some "i", none⟩ "i" demoGen
    ⟨fun _ => "z", 5⟩ rfl

/-- C8: `spawnPersistentInstance` and `persistentInvocableSource` leave the
descriptor they are given unchanged — in the heap-instrumented embedding, the heap
after the call equals the heap before it, and in particular the descriptor cell
(all three fields) is identical before and after, even when a missing
`machineInstanceName` is filled in on the returned object. -/
theorem descriptor_frame_preserved :
    ∀ env heap dref opts g,
      (∀ out heap', spawnPersistentInstanceHeap env heap dref opts g
          = some (out, heap') → heap' = heap ∧ heap'.get? dref = heap.get? dref)
      ∧ (∀ out heap', persistentInvocableSourceHeap heap dref g
          = some (out, heap') → heap' = heap ∧ heap'.get? dref = heap.get? dref) := by
  intro env heap dref opts g
  constructor <;>
    (intro out heap' h
     first
       | unfold spawnPersistentInstanceHeap at h
       | unfold persistentInvocableSourceHeap at h
     split at h
     · exact absurd h (by simp)
     · simp only [Option.some.injEq, Prod.mk.injEq] at h
       obtain ⟨h1, h2⟩ := h
       exact ⟨h2.symm, by rw [h2]⟩)

/-- Witness for C8 on a concrete one-descriptor heap, discharging the
successful-dereference hypotheses of both conjuncts. -/
theorem descriptor_frame_preserved_witness :
    (([⟨"m", some "i", none⟩] : DescriptorHeap) = [⟨"m", some "i", none⟩]
        ∧ ([⟨"m", some "i", none⟩] : DescriptorHeap).get? 0
            = ([⟨"m", some "i", none⟩] : DescriptorHeap).get? 0)
    ∧ (([⟨"m", some "i", none⟩] : DescriptorHeap) = [⟨"m", some "i", none⟩]
        ∧ ([⟨"m", some "i", none⟩] : DescriptorHeap).get? 0
            = ([⟨"m", some "i", none⟩] : DescriptorHeap).get? 0) :=
  ⟨(descriptor_frame_preserved ⟨none, none⟩ [⟨"m", some "i", none⟩] 0 none demoGen).1
      (spawnPersistentInstance ⟨none, none⟩ ⟨"m", some "i", none⟩ none demoGen)
      [⟨"m", some "i", none⟩] rfl,
   (descriptor_frame_preserved ⟨none, none⟩ [⟨"m", some "i", none⟩] 0 none demoGen).2
      (persistentInvocableSource ⟨"m", some "i", none⟩ demoGen)
      [⟨"m", some "i", none⟩] rfl⟩

/-- C9: with no runtime hook installed, `spawnPersistentInstance` preserves
caller-supplied names: a supplied `machineInstanceName` is returned verbatim, and a
supplied `opts.name` becomes the returned `id`. -/
theorem spawnPersistent_preserves_names :
    ∀ env d opts g, env.statebacked_rt = none →
      (∀ i, d.machineInstanceName = some i →
        (spawnPersistentInstance env d opts g).1.machineInstanceName = i)
      ∧ (∀ o n, opts = some o → o.name = some n →
        (spawnPersistentInstance env d opts g).1.id = n) := by
  intro env d opts g h
  rcases env with ⟨bk, bkd⟩
  cases h
  constructor
  · intro i hi
    rcases opts with _ | ⟨ctx, nm⟩
    · simp [spawnPersistentInstance, hi, randomUUID]
    · rcases nm with _ | n <;> simp [spawnPersistentInstance, hi, randomUUID]
  · intro o n ho hn
    cases ho
    rcases d with ⟨mn, mi, mv⟩
    rcases mi with _ | i <;> simp [spawnPersistentInstance, hn, randomUUID]

/-- Witness for C9 at a concrete hook-less input with both names supplied. -/
theorem spawnPersistent_preserves_names_witness :
    (spawnPersistentInstance ⟨none, none⟩ ⟨"m", some "inst", none⟩
        (some ⟨none, some "nm"⟩) demoGen).1.machineInstanceName = "inst"
    ∧ (spawnPersistentInstance ⟨none, none⟩ ⟨"m", some "inst", none⟩
        (some ⟨none, some "nm"⟩) demoGen).1.id = "nm" :=
  ⟨(spawnPersistent_preserves_names ⟨none, none⟩ ⟨"m", some "inst", none⟩
      (some ⟨none, some "nm"⟩) demoGen rfl).1 "inst" rfl,
   (spawnPersistent_preserves_names ⟨none, none⟩ ⟨"m", some "inst", none⟩
      (some ⟨none, some "nm"⟩) demoGen rfl).2 ⟨none, some "nm"⟩ "nm" rfl rfl⟩

/-- C10: the legacy `spawn` consults the misspelled global `__statebaked_rt`: in an
environment where `__statebacked_rt` carries a spawn function but `__statebaked_rt`
is undefined, legacy `spawn` behaves exactly as in a hook-less environment (local
fallback) while `spawnPersistentInstance` delegates to the installed hook. -/
theorem spawn_typo_hook_divergence :
    ∀ env hook d opts g, env.statebacked_rt = some hook →
      env.statebaked_rt = none →
        spawn env d opts g = spawn ⟨none, none⟩ d opts g
        ∧ spawnPersistentInstance env d opts g = (hook.spawnPersistent d opts, g) := by
  intro env hook d opts g h1 h2
  rcases env with ⟨bk, bkd⟩
  cases h1
  cases h2
  exact ⟨rfl, rfl⟩

/-- Witness for C10 with the demo hook installed in the correctly-spelled slot
only. -/
theorem spawn_typo_hook_divergence_witness :
    spawn ⟨some demoHook, none⟩ ⟨"m", none, none⟩ (some ⟨none, none⟩) demoGen
        = spawn ⟨none, none⟩ ⟨"m", none, none⟩ (some ⟨none, none⟩) demoGen
    ∧ spawnPersistentInstance ⟨some demoHook, none⟩ ⟨"m", none, none⟩
        (some ⟨none, none⟩) demoGen
        = (demoHook.spawnPersistent ⟨"m", none, none⟩ (some ⟨none, none⟩), demoGen) :=
  spawn_typo_hook_divergence ⟨some demoHook, none⟩ demoHook ⟨"m", none, none⟩
    (some ⟨none, none⟩) demoGen rfl rfl

mutual
/-- `StateValue` from `src/index.ts` (line 321):
`string | { [parentState: string]: StateValue }`.  A JS object literal is modelled
as its ordered list of key/value properties (`StateChildren`). -/
inductive StateValue where
  | leaf (name : String) : StateValue
  | node (kids : StateChildren) : StateValue
/-- The ordered properties of a `StateValue` object literal. -/
inductive StateChildren where
  | nil : StateChildren
  | cons (key : String) (val : StateValue) (rest : StateChildren) : StateChildren
end

/-- `StatePath` from `src/index.ts` (line 385): an array of state names from the
machine root through the state hierarchy to a single leaf state. -/
abbrev StatePath := List String

/-- The keys of an object literal, in property order. -/
def keysOf : StateChildren → List String
  | .nil => []
  | .cons k _ rest => k :: keysOf rest

/-- Whether the property list is empty. -/
def StateChildren.isNil : StateChildren → Bool
  | .nil => true
  | .cons _ _ _ => false

/-- All keys distinct (JS object keys are unique). -/
def distinctKeys : List String → Bool
  | [] => true
  | k :: ks => !(ks.contains k) && distinctKeys ks

mutual
/-- Well-formed per the spec's encoding rule: an atomic leaf state is a bare name;
a composite or parallel state is an object with at least one key (one key per
active region), distinct keys, and well-formed child values. -/
def WFValue : StateValue → Bool
  | .leaf _ => true
  | .node kids => !kids.isNil && distinctKeys (keysOf kids) && WFChildren kids
/-- All child values well-formed. -/
def WFChildren : StateChildren → Bool
  | .nil => true
  | .cons _ v rest => WFValue v && WFChildren rest
end

mutual
/-- Modelled from the spec: decomposition of a `StateValue` into its leaf
`StatePath`s (the flattening direction of the round-trip in section 4.2 of the
spec; the repository only declares the `StateValue` and `StatePath` types, the
decomposition itself lives in the external runtime).  A leaf `n` yields the single
path `[n]`; an object yields, for each key, that key prepended to every path of
the corresponding child. -/
def toPaths : StateValue → List StatePath
  | .leaf n => [[n]]
  | .node kids => toPathsC kids
/-- Paths of all properties of an object, in property order. -/
def toPathsC : StateChildren → List StatePath
  | .nil => []
  | .cons k v rest => (toPaths v).map (fun p => k :: p) ++ toPathsC rest
end

/-- The distinct heads of the non-empty paths, in first-seen order. -/
def headKeys : List StatePath → List String
  | [] => []
  | [] :: ps => headKeys ps
  | (h :: _) :: ps => h :: (headKeys ps).filter (fun x => x != h)

/-- The tails of the paths that start with `k`. -/
def tailsFor (k : String) (ps : List StatePath) : List StatePath :=
  ps.filterMap (fun p => match p with
    | [] => none
    | h :: t => if h = k then some t else none)

/-- Group the paths by their head key, in first-seen order. -/
def groupByHead (ps : List StatePath) : List (String × List StatePath) :=
  (headKeys ps).map (fun k => (k, tailsFor k ps))

/-- Build an object literal from an ordered key/value list. -/
def StateChildren.ofList : List (String × StateValue) → StateChildren
  | [] => .nil
  | (k, v) :: rest => .cons k v (StateChildren.ofList rest)

/-- Modelled from the spec: re-composition of a set of leaf `StatePath`s into a
`StateValue` (the reconstruction direction of the round-trip in section 4.2 of the
spec, absent from the repository, which only declares the types).  A single
singleton path is an atomic leaf; otherwise the paths are grouped by head key and
each group is recomposed recursively under its key.  `fuel` bounds the recursion
depth (one unit per nesting level). -/
def fromPathsAux : Nat → List StatePath → StateValue
  | 0, _ => .leaf ""
  | fuel + 1, ps =>
    match ps with
    | [[n]] => .leaf n
    | _ => .node (StateChildren.ofList
        ((groupByHead ps).map (fun g => (g.1, fromPathsAux fuel g.2))))

/-- Total length of the paths; an upper bound on the nesting depth. -/
def sumLen (ps : List StatePath) : Nat := (ps.map List.length).sum

/-- Modelled from the spec: re-composition of leaf `StatePath`s into a
`StateValue`; the total path length is always enough fuel. -/
def fromPaths (ps : List StatePath) : StateValue := fromPathsAux (sumLen ps) ps

mutual
/-- Nesting depth of a value: number of levels, hence the length of its longest
leaf path. -/
def depth : StateValue → Nat
  | .leaf _ => 1
  | .node kids => 1 + depthC kids
/-- Largest child depth. -/
def depthC : StateChildren → Nat
  | .nil => 0
  | .cons _ v rest => max (depth v) (depthC rest)
end

mutual
theorem toPaths_ne : ∀ (v : StateValue), WFValue v = true → toPaths v ≠ []
  | .leaf n, _ => by simp [toPaths]
  | .node kids, h => by
    simp only [WFValue, Bool.and_eq_true, Bool.not_eq_true'] at h
    exact toPathsC_ne kids h.2 h.1.1
theorem toPathsC_ne : ∀ (c : StateChildren), WFChildren c = true →
    c.isNil = false → toPathsC c ≠ []
  | .cons k v rest, h, _ => by
    simp only [WFChildren, Bool.and_eq_true] at h
    have hv := toPaths_ne v h.1
    simp [toPathsC, List.append_eq_nil, hv]
end

mutual
theorem mem_toPaths_ne : ∀ (v : StateValue) (p : StatePath), p ∈ toPaths v → p ≠ []
  | .leaf n, p, hp => by
    simp only [toPaths, List.mem_singleton] at hp
    simp [hp]
  | .node kids, p, hp => mem_toPathsC_ne kids p (by simpa [toPaths] using hp)
theorem mem_toPathsC_ne : ∀ (c : StateChildren) (p : StatePath),
    p ∈ toPathsC c → p ≠ []
  | .cons k v rest, p, hp => by
    simp only [toPathsC, List.mem_append, List.mem_map] at hp
    rcases hp with ⟨q, _, rfl⟩ | hp
    · simp
    · exact mem_toPathsC_ne rest p hp
end

theorem headKeys_block (k : String) (B R : List StatePath) (hB : B ≠ []) :
    headKeys (B.map (fun p => k :: p) ++ R)
      = k :: (headKeys R).filter (fun x => x != k) := by
  induction B with
  | nil => exact absurd rfl hB
  | cons q B ih =>
    cases B with
    | nil => simp [headKeys]
    | cons q2 B2 =>
      have ih2 := ih (by simp)
      simp only [List.map_cons, List.cons_append, headKeys] at ih2 ⊢
      rw [ih2]
      simp [List.filter_filter]

theorem tailsFor_cons_eq (k : String) (q : List String) (L : List StatePath) :
    tailsFor k ((k :: q) :: L) = q :: tailsFor k L := by
  simp [tailsFor]

theorem tailsFor_cons_ne (k k2 : String) (hne : k2 ≠ k) (q : List String)
    (L : List StatePath) :
    tailsFor k ((k2 :: q) :: L) = tailsFor k L := by
  simp [tailsFor, hne]

theorem tailsFor_block (k : String) (B R : List StatePath) :
    tailsFor k (B.map (fun p => k :: p) ++ R) = B ++ tailsFor k R := by
  induction B with
  | nil => simp
  | cons q B ih =>
    simp only [List.map_cons, List.cons_append, tailsFor_cons_eq, ih]

theorem tailsFor_block_ne (k k2 : String) (hne : k2 ≠ k) (B R : List StatePath) :
    tailsFor k (B.map (fun p => k2 :: p) ++ R) = tailsFor k R := by
  induction B with
  | nil => simp
  | cons q B ih =>
    simp only [List.map_cons, List.cons_append, tailsFor_cons_ne k k2 hne, ih]

theorem tailsFor_toPathsC_not_mem : ∀ (c : StateChildren) (k : String),
    k ∉ keysOf c → tailsFor k (toPathsC c) = []
  | .nil, k, _ => by simp [toPathsC, tailsFor]
  | .cons k2 v rest, k, h => by
    simp only [keysOf, List.mem_cons, not_or] at h
    rw [toPathsC, tailsFor_block_ne k k2 (fun e => h.1 e.symm)]
    exact tailsFor_toPathsC_not_mem rest k h.2

theorem headKeys_toPathsC : ∀ (c : StateChildren), WFChildren c = true →
    distinctKeys (keysOf c) = true → headKeys (toPathsC c) = keysOf c
  | .nil, _, _ => rfl
  | .cons k v rest, h, hd => by
    simp only [WFChildren, Bool.and_eq_true] at h
    have hd2 : k ∉ keysOf rest ∧ distinctKeys (keysOf rest) = true := by
      simpa [keysOf, distinctKeys] using hd
    rw [toPathsC, headKeys_block k _ _ (toPaths_ne v h.1),
      headKeys_toPathsC rest h.2 hd2.2, keysOf]
    congr 1
    exact List.filter_eq_self.mpr (fun x hx => by
      simp only [bne_iff_ne, ne_eq, decide_eq_true_eq]
      exact fun e => hd2.1 (e ▸ hx))

theorem sumLen_nil : sumLen [] = 0 := rfl

theorem sumLen_append (A B : List StatePath) :
    sumLen (A ++ B) = sumLen A + sumLen B := by
  simp [sumLen]

theorem sumLen_map_cons (k : String) (B : List StatePath) :
    sumLen (B.map (fun p => k :: p)) = B.length + sumLen B := by
  induction B with
  | nil => simp [sumLen]
  | cons q B ih =>
    simp only [sumLen, List.map_cons, List.map_map, List.sum_cons,
      List.length_cons] at ih ⊢
    omega

mutual
theorem depth_le_sumLen : ∀ (v : StateValue), WFValue v = true →
    depth v ≤ sumLen (toPaths v)
  | .leaf n, _ => by simp [depth, toPaths, sumLen]
  | .node kids, h => by
    simp only [WFValue, Bool.and_eq_true, Bool.not_eq_true'] at h
    have := depthC_lt_sumLen kids h.2 h.1.1
    simp only [depth, toPaths]
    omega
theorem depthC_lt_sumLen : ∀ (c : StateChildren), WFChildren c = true →
    c.isNil = false → depthC c < sumLen (toPathsC c)
  | .cons k v rest, h, _ => by
    simp only [WFChildren, Bool.and_eq_true] at h
    have hv := depth_le_sumLen v h.1
    have hlen : 1 ≤ (toPaths v).length :=
      List.length_pos.mpr (toPaths_ne v h.1)
    rw [toPathsC, sumLen_append, sumLen_map_cons]
    cases rest with
    | nil =>
      simp only [depthC, toPathsC, sumLen_nil, Nat.max_zero]
      omega
    | cons k2 v2 r2 =>
      have hr := depthC_lt_sumLen (.cons k2 v2 r2) h.2 rfl
      simp only [depthC] at hr ⊢
      omega
end

theorem fromPathsAux_node_eq (f : Nat) (a b : String) (t : List String)
    (L : List StatePath) :
    fromPathsAux (f + 1) ((a :: b :: t) :: L)
      = .node (StateChildren.ofList ((groupByHead ((a :: b :: t) :: L)).map
          (fun g => (g.1, fromPathsAux f g.2)))) := rfl

mutual
theorem fromPathsAux_toPaths : ∀ (fuel : Nat) (v : StateValue),
    WFValue v = true → depth v ≤ fuel → fromPathsAux fuel (toPaths v) = v
  | fuel, .leaf n, _, hd => by
    cases fuel with
    | zero => simp [depth] at hd
    | succ f => rfl
  | fuel, .node kids, h, hd => by
    simp only [WFValue, Bool.and_eq_true, Bool.not_eq_true'] at h
    obtain ⟨⟨hnil, hdk⟩, hwfc⟩ := h
    cases fuel with
    | zero => simp [depth] at hd
    | succ f =>
      have hdc : depthC kids ≤ f := by simp only [depth] at hd; omega
      cases kids with
      | nil => simp [StateChildren.isNil] at hnil
      | cons k v0 rest =>
        simp only [WFChildren, Bool.and_eq_true] at hwfc
        obtain ⟨q, qs, e1⟩ : ∃ q qs, toPaths v0 = q :: qs := by
          cases hq : toPaths v0 with
          | nil => exact absurd hq (toPaths_ne v0 hwfc.1)
          | cons q qs => exact ⟨q, qs, rfl⟩
        obtain ⟨m, qt, e2⟩ : ∃ m qt, q = m :: qt := by
          cases hq : q with
          | nil =>
            exact absurd hq (mem_toPaths_ne v0 q (by rw [e1]; exact List.mem_cons_self q qs))
          | cons m qt => exact ⟨m, qt, rfl⟩
        have hshape : toPathsC (.cons k v0 rest)
            = (k :: m :: qt) :: (qs.map (fun p => k :: p) ++ toPathsC rest) := by
          rw [toPathsC, e1, e2]
          simp
        rw [toPaths, hshape, fromPathsAux_node_eq, ← hshape]
        simp only [groupByHead, List.map_map, Function.comp]
        rw [headKeys_toPathsC (.cons k v0 rest) (by simp [WFChildren, hwfc.1, hwfc.2]) hdk]
        exact congrArg StateValue.node
          (fromPathsAux_children f (.cons k v0 rest)
            (by simp [WFChildren, hwfc.1, hwfc.2]) hdk hdc)
theorem fromPathsAux_children : ∀ (fuel : Nat) (c : StateChildren),
    WFChildren c = true → distinctKeys (keysOf c) = true → depthC c ≤ fuel →
    StateChildren.ofList ((keysOf c).map
      (fun k => (k, fromPathsAux fuel (tailsFor k (toPathsC c))))) = c
  | _, .nil, _, _, _ => rfl
  | fuel, .cons k v rest, h, hdk, hd => by
    simp only [WFChildren, Bool.and_eq_true] at h
    have hdk2 : k ∉ keysOf rest ∧ distinctKeys (keysOf rest) = true := by
      simpa [keysOf, distinctKeys] using hdk
    have hdv : depth v ≤ fuel := by simp only [depthC] at hd; omega
    have hdr : depthC rest ≤ fuel := by simp only [depthC] at hd; omega
    have hA : tailsFor k (toPathsC (.cons k v rest)) = toPaths v := by
      rw [toPathsC, tailsFor_block, tailsFor_toPathsC_not_mem rest k hdk2.1,
        List.append_nil]
    have hB : ∀ x ∈ keysOf rest,
        tailsFor x (toPathsC (.cons k v rest)) = tailsFor x (toPathsC rest) := by
      intro x hx
      have hxk : k ≠ x := fun e => hdk2.1 (e ▸ hx)
      rw [toPathsC, tailsFor_block_ne x k hxk]
    simp only [keysOf, List.map_cons, StateChildren.ofList]
    rw [hA, fromPathsAux_toPaths fuel v h.1 hdv,
      List.map_congr_left (fun x hx => by rw [hB x hx]),
      fromPathsAux_children fuel rest h.2 hdk2.2 hdr]
end

/-- C4: decomposing a well-formed `StateValue` into its leaf `StatePath`s and
re-composing them reproduces the original value. -/
theorem stateValue_paths_roundtrip (v : StateValue) (h : WFValue v = true) :
    fromPaths (toPaths v) = v :=
  fromPathsAux_toPaths (sumLen (toPaths v)) v h (depth_le_sumLen v h)

/-- A concrete machine state with nesting and a parallel region:
`{a: {b: "c", d: "e"}}`. -/
def demoStateValue : StateValue :=
  .node (.cons "a"
    (.node (.cons "b" (.leaf "c") (.cons "d" (.leaf "e") .nil))) .nil)

/-- Witness for C4 at the concrete state value, discharging the well-formedness
hypothesis. -/
theorem stateValue_paths_roundtrip_witness :
    WFValue demoStateValue = true
    ∧ fromPaths (toPaths demoStateValue) = demoStateValue :=
  ⟨by decide, stateValue_paths_roundtrip demoStateValue (by decide)⟩
